import Mathlib

/-!
Verification of the filtering, version-selection and reconciliation core of
the `nerve_cli` command-line tool, shallowly embedded in Lean.

Python strings are modelled as lists of characters (`Str`), Python scalar
values as the inductive `PyVal`, Python dicts holding remote-connection or
label records as association lists (`RRec`), and the external regular
expression engine (`re.compile(...).search`) as an abstract function
parameter `search : Str → Str → Bool`.  Fallible code returns
`Except Str`.  Mutation of records held by the caller
(`wl_version["overall_size"] = ...` in `filter_versions`) is modelled by an
explicit heap (`Heap`) of records addressed by position.
-/

namespace NerveCLI

/-- Python strings, modelled as lists of characters. -/
abbrev Str := List Char

/-- Convert a Lean string literal to the `Str` model. -/
def str (s : String) : Str := s.data

/-- Python scalar values that can appear as a filter specification or a
filtered data value in `check_filter_arg` (utils.py): `None`, `bool`,
`int`, `str`. -/
inductive PyVal where
  | none : PyVal
  | bool (b : Bool) : PyVal
  | int (n : Int) : PyVal
  | string (s : Str) : PyVal
deriving DecidableEq

/-- Python `==` on the modelled scalar values.  Python compares `bool` and
`int` numerically (`True == 1`, `False == 0`); values of otherwise distinct
types compare unequal. -/
def pyEq : PyVal → PyVal → Bool
  | .none, .none => true
  | .bool a, .bool b => a == b
  | .bool a, .int n => (if a then (1 : Int) else 0) == n
  | .int n, .bool a => n == (if a then (1 : Int) else 0)
  | .int n, .int m => n == m
  | .string s, .string t => s == t
  | _, _ => false

/-- Python truthiness of the modelled scalar values. -/
def pyTruthy : PyVal → Bool
  | .none => false
  | .bool b => b
  | .int n => n != 0
  | .string s => !s.isEmpty

/-- The literal `"regex:"` marker recognised by `check_filter_arg`. -/
def rxMarker : Str := str "regex:"

/-- Shallow embedding of `check_filter_arg(cmd_line_filter, data_value)`
from `nerve_cli/utils.py` (lines 35-56).  The external regex engine is
passed in as `search pattern value`, standing for
`bool(re.compile(pattern).search(value))`. -/
def check_filter_arg (search : Str → Str → Bool) (spec value : PyVal) : Bool :=
  -- if cmd_line_filter == "" or cmd_line_filter is None: return True
  if pyEq spec (.string []) || spec == .none then true
  else
    -- ret_val = False; if cmd_line_filter: ...
    if pyTruthy spec then
      match spec with
      | .bool _ => pyEq spec value
      | .int _ => pyEq spec value
      | .string s =>
        if rxMarker.isPrefixOf s then
          match value with
          | .string t => search (s.drop 6) t
          | _ => false
        else pyEq spec value
      | .none => false
    else false

/-! ## Declarative reconciler (nodes_remote_connections.py) -/

/-- A remote-connection (or label) record: a Python dict modelled as an
association list from string keys to values, keys unique in practice. -/
abbrev RRec := List (Str × PyVal)

/-- Python `key in d` / `d[key]` lookup on the dict model (first binding). -/
def dictLookup (r : RRec) (k : Str) : Option PyVal :=
  (r.find? (fun kv => kv.1 == k)).map (fun kv => kv.2)

/-- The loop body of `find_in_remotes_list`: `remote_compare` matches
`remote_element` iff every key of `remote_element` is present in
`remote_compare` with a `==`-equal value (observed entries may carry extra
keys). -/
def supersetMatch (d r : RRec) : Bool :=
  d.all (fun kv =>
    match dictLookup r kv.1 with
    | some v => pyEq kv.2 v
    | Option.none => false)

/-- Shallow embedding of `find_in_remotes_list(remote_element, remotes_list)`
from `nerve_cli/nodes_remote_connections.py` (lines 101-117): returns the
first entry of `remotes_list` that superset-matches `remote_element`, else
the empty dict `{}`. -/
def find_in_remotes_list (d : RRec) (remotes_list : List RRec) : RRec :=
  if remotes_list.isEmpty then []
  else
    match remotes_list.find? (fun r => supersetMatch d r) with
    | some r => r
    | Option.none => []

/-- Per-node `to_add` computation of the `--add` branch of
`nodes_remote_connections` (lines 197-206): a desired tunnel is added iff
`find_in_remotes_list` returns a falsy (empty) dict. -/
def tunnels_to_add_for_node (file_remotes : List RRec) (existing : List RRec) : List RRec :=
  file_remotes.foldl
    (fun acc tunnel =>
      if (find_in_remotes_list tunnel existing).isEmpty then acc ++ [tunnel] else acc)
    []

/-- Per-node `to_remove` computation of the `--delete` branch of
`nodes_remote_connections` (lines 218-228): for each desired tunnel the
matching *observed* entry is scheduled for removal when it is truthy
(non-empty). -/
def tunnels_to_remove_for_node (file_remotes : List RRec) (existing : List RRec) : List RRec :=
  file_remotes.foldl
    (fun acc tunnel =>
      let remote_element := find_in_remotes_list tunnel existing
      if remote_element.isEmpty then acc else acc ++ [remote_element])
    []

/-! ## Version selection policy (ms_workloads.py, `filter_versions`)

Helpers for the Python string operations used there: decimal parsing
(`float`/`int` restricted to the decimal literals the claims are about),
`s[-n:]` / `s[:-n]` slices, `s.split(":")`, list slicing and indexing. -/

/-- Decimal digit test. -/
def isDigitC (c : Char) : Bool := '0' ≤ c && c ≤ '9'

/-- Parse a non-empty all-digit string to a natural number, else `none`.
Models Python `float`/`int` conversion restricted to decimal natural
literals (for which conversion through a binary float is exact as long as
the value stays below 2^53). -/
def parseNat (l : Str) : Option Nat :=
  if !l.isEmpty && l.all isDigitC then
    some (l.foldl (fun a c => a * 10 + (c.toNat - 48)) 0)
  else Option.none

/-- Parse an optionally `'-'`-signed decimal integer, else `none`.  Models
Python `int(...)` on the slice parts of `version_list_filter`. -/
def parseInt (l : Str) : Option Int :=
  match l with
  | '-' :: rest => (parseNat rest).map (fun n => -(n : Int))
  | _ => (parseNat l).map (fun n => (n : Int))

/-- Python `s[-n:]`. -/
def takeRightL (n : Nat) (l : Str) : Str := l.drop (l.length - n)

/-- Python `s[:-n]`. -/
def dropRightL (n : Nat) (l : Str) : Str := l.take (l.length - n)

/-- Python `s.split(sep)` for a one-character separator. -/
def pySplit (sep : Char) : Str → List Str
  | [] => [[]]
  | c :: rest =>
    match pySplit sep rest with
    | [] => [[c]]
    | h :: t => if c = sep then [] :: h :: t else (c :: h) :: t

/-- Python list slicing `l[s:e]` with optional and possibly negative
bounds. -/
def pySlice (s? e? : Option Int) (l : List α) : List α :=
  let n : Int := l.length
  let s : Int := match s? with
    | Option.none => 0
    | some i => if i < 0 then max (n + i) 0 else min i n
  let e : Int := match e? with
    | Option.none => n
    | some i => if i < 0 then max (n + i) 0 else min i n
  (l.take e.toNat).drop s.toNat

/-- Python list indexing `l[i]` with negative indices, `none` on
`IndexError`. -/
def pyIndex (i : Int) (l : List α) : Option α :=
  let n : Int := l.length
  let j : Int := if i < 0 then i + n else i
  if 0 ≤ j && j < n then l[j.toNat]? else Option.none

/-- A workload version record, with the fields `filter_versions` touches.
`createdAt`/`updatedAt` carry the instant a successful
`datetime.strptime(..., "%Y-%m-%dT%H:%M:%S.%fZ")` parse denotes, modelled
as a natural number; `files` carries the (already `int`-converted) sizes
of `files[].size`; `overall_size` is the derived field the policy
writes. -/
structure VersionRecord where
  name : Str
  releaseName : Option Str
  files : Option (List Nat)
  createdAt : Nat
  updatedAt : Option Nat
  overall_size : Option Nat
deriving DecidableEq

instance : Inhabited VersionRecord := ⟨⟨[], Option.none, Option.none, 0, Option.none, Option.none⟩⟩

/-- Model of `v.get("releaseName")` as a `PyVal` (absent key gives `None`). -/
def releaseNamePy (v : VersionRecord) : PyVal :=
  match v.releaseName with
  | some s => .string s
  | Option.none => .none

/-- The `overall_size` loop body: sum of `files[].size`, zero when `files`
is missing (`wl_version.get("files", [])`). -/
def sumSizes (files : Option (List Nat)) : Nat :=
  (files.getD []).foldl (fun a s => a + s) 0

/-- In-place `wl_version["overall_size"] = overall_size`. -/
def setOverall (v : VersionRecord) : VersionRecord :=
  { v with overall_size := some (sumSizes v.files) }

/-- A record with its derived `overall_size` field forgotten (used to state
which part of a record the policy may change). -/
def stripOverall (v : VersionRecord) : VersionRecord :=
  { v with overall_size := Option.none }

/-- The error text of `raise ValueError("Invalid size format, ...")`. -/
def sizeErrMsg : Str := str "Invalid size format, must end with one of GB, MB, KB, B"

/-- The error text Python raises when `float()` cannot parse the numeric
part. -/
def floatErrMsg : Str := str "could not convert string to float"

/-- Suffix dispatch of the `version_size_above` branch (ms_workloads.py
lines 266-276): `s[-2:]` compared against `"KB"`, `"MB"`, `"GB"` in that
order, then `s[-1] == "B"`; anything else raises "Invalid size format".
The numeric part goes through `float(...)`, then the threshold is
truncated with `int(...)`. -/
def parseSizeAbove (s : Str) : Except Str Nat :=
  if takeRightL 2 s = str "KB" then
    match parseNat (dropRightL 2 s) with
    | some n => .ok (n * 1024)
    | Option.none => .error floatErrMsg
  else if takeRightL 2 s = str "MB" then
    match parseNat (dropRightL 2 s) with
    | some n => .ok (n * 1024 * 1024)
    | Option.none => .error floatErrMsg
  else if takeRightL 2 s = str "GB" then
    match parseNat (dropRightL 2 s) with
    | some n => .ok (n * 1024 * 1024 * 1024)
    | Option.none => .error floatErrMsg
  else if takeRightL 1 s = str "B" then
    match parseNat (dropRightL 1 s) with
    | some n => .ok n
    | Option.none => .error floatErrMsg
  else .error sizeErrMsg

/-- The `version_size_above` loop: the threshold is re-parsed for every
version (so an empty list raises no error), and a version is kept iff its
`overall_size` strictly exceeds the threshold. -/
def sizeFilterGo (s : Str) : List VersionRecord → Except Str (List VersionRecord)
  | [] => .ok []
  | v :: rest =>
    match parseSizeAbove s with
    | .error e => .error e
    | .ok t =>
      match sizeFilterGo s rest with
      | .error e => .error e
      | .ok tail => if v.overall_size.getD 0 > t then .ok (v :: tail) else .ok tail

/-- Stage 3 of `filter_versions`: the `if args.version_size_above:` block
(guarded by Python truthiness of the argument string). -/
def sizeStage (arg : Option Str) (vs : List VersionRecord) : Except Str (List VersionRecord) :=
  match arg with
  | Option.none => .ok vs
  | some s => if s.isEmpty then .ok vs else sizeFilterGo s vs

/-- Stage 4 of `filter_versions`: the `if args.version_date_older_than:`
block.  The latest modification instant prefers `updatedAt` over
`createdAt`; a version is kept iff that instant is strictly earlier than
the given date (both modelled as pre-parsed instants). -/
def dateStage (arg : Option Nat) (vs : List VersionRecord) : Except Str (List VersionRecord) :=
  match arg with
  | Option.none => .ok vs
  | some d => .ok (vs.filter (fun v => v.updatedAt.getD v.createdAt < d))

/-- The error text of `raise ValueError("Invalid version_list_filter format.")`. -/
def rangeErrMsg : Str := str "Invalid version_list_filter format."

/-- Stage 5 of `filter_versions`: the `if args.version_list_filter:` block
(ms_workloads.py lines 297-317).  Versions are sorted ascending by
`createdAt` with a stable sort (Python `sorted`; modelled by
`List.insertionSort`, which is also stable), the specification is split on
`":"`, and a two-part specification is applied as a Python slice while a
one-part specification selects a single index; every failure inside the
`try` block (bad integer, out-of-range index, more than two parts)
becomes the "Invalid version_list_filter format." error. -/
def rangeStage (arg : Option Str) (vs : List VersionRecord) : Except Str (List VersionRecord) :=
  match arg with
  | Option.none => .ok vs
  | some r =>
    if r.isEmpty then .ok vs
    else
      let sorted := List.insertionSort (fun a b => a.createdAt ≤ b.createdAt) vs
      match pySplit ':' r with
      | [p] =>
        match parseInt p with
        | some i =>
          match pyIndex i sorted with
          | some v => .ok [v]
          | Option.none => .error rangeErrMsg
        | Option.none => .error rangeErrMsg
      | [p, q] =>
        match (if p.isEmpty then some Option.none else (parseInt p).map some),
              (if q.isEmpty then some Option.none else (parseInt q).map some) with
        | some s?, some e? => .ok (pySlice s? e? sorted)
        | _, _ => .error rangeErrMsg
      | _ => .error rangeErrMsg

/-- The filter arguments of `filter_versions`.  `version_name` and
`version_release_name` are arbitrary filter specifications fed to
`check_filter_arg`; the remaining three are the stage-3/4/5 arguments
(`none` = absent). -/
structure FilterArgs where
  version_name : PyVal
  version_release_name : PyVal
  version_size_above : Option Str
  version_date_older_than : Option Nat
  version_list_filter : Option Str

/-- Stages 3-5 of `filter_versions` in source order. -/
def stages345 (a : FilterArgs) (vs : List VersionRecord) : Except Str (List VersionRecord) := do
  let vs3 ← sizeStage a.version_size_above vs
  let vs4 ← dateStage a.version_date_older_than vs3
  rangeStage a.version_list_filter vs4

/-- Value-level result of `filter_versions(workload, args)` from
`nerve_cli/ms_workloads.py` (lines 251-319): the name and release-name
filters, the `overall_size` computation, then stages 3-5. -/
def filter_versions (search : Str → Str → Bool) (a : FilterArgs)
    (vs : List VersionRecord) : Except Str (List VersionRecord) :=
  let vs1 := vs.filter (fun v => check_filter_arg search a.version_name (.string v.name))
  let vs2 := vs1.filter (fun v => check_filter_arg search a.version_release_name (releaseNamePy v))
  stages345 a (vs2.map setOverall)

/-! ### Identity-aware embedding of `filter_versions`

The caller's `workload["versions"]` holds references to record objects;
the `overall_size` loop mutates those objects in place, while the
`deepcopy` after the size and date stages detaches all later work from
them.  We model the caller's records as a heap (`Heap`) of records
addressed by position, the caller's list as a list of addresses, and
in-place assignment as `List.set` on the heap. -/

abbrev Heap := List VersionRecord

/-- Dereference an address in the heap. -/
def readH (h : Heap) (i : Nat) : VersionRecord := h.getD i default

/-- Embedding of `filter_versions` with the caller's records held in a heap: returns the
heap as it stands after the call together with the value-level result. -/
def filter_versions_heap (search : Str → Str → Bool) (a : FilterArgs)
    (h : Heap) (caller : List Nat) : Heap × Except Str (List VersionRecord) :=
  let l1 := caller.filter (fun i => check_filter_arg search a.version_name (.string (readH h i).name))
  let l2 := l1.filter (fun i => check_filter_arg search a.version_release_name (releaseNamePy (readH h i)))
  -- the overall_size loop writes into the records the caller still holds
  let h2 := l2.foldl (fun hh i => hh.set i (setOverall (readH hh i))) h
  (h2, stages345 a (l2.map (readH h2)))

/-! ## Node reboot batch (nodes_reboot.py) -/

/-- A node entry of the nodes file, with the fields `nodes_reboot` reads. -/
structure RNode where
  name : Str
  serialNumber : Str
deriving DecidableEq

/-- Outcome of `node_handle.reboot()` for one node: success, or a
`CheckStatusCodeError` carrying an HTTP status code. -/
inductive RebootOutcome where
  | ok : RebootOutcome
  | statusErr (code : Nat) : RebootOutcome
deriving DecidableEq

/-- Logging levels of the `logging` module that `nodes_reboot` could use. -/
inductive Level where
  | info : Level
  | warn : Level
  | err : Level
deriving DecidableEq

/-- One emitted log line: its level and its formatted message. -/
abbrev LogEntry := Level × Str

/-- The value of `requests.codes.conflict`. -/
def conflictCode : Nat := 409

/-- The loop body of `nodes_reboot` (nodes_reboot.py lines 57-72) for one
node: optional confirmation prompt, the "Trigger command" info line, the
reboot call, and the `except CheckStatusCodeError` handler that logs a
warning only when the status code is `conflict`. -/
def rebootNode (yes : Bool) (confirm : Str → Bool) (outcome : Str → RebootOutcome)
    (node : RNode) : List LogEntry :=
  if !yes && !confirm node.name then
    [(Level.info, str "Skipping node " ++ node.name)]
  else
    [(Level.info, str "Trigger command to reboot node " ++ node.name)] ++
      match outcome node.serialNumber with
      | .ok => []
      | .statusErr code =>
        if code = conflictCode then
          [(Level.warn, str "Node " ++ node.name ++ str " is currently offline and cannot be rebooted")]
        else []

/-- Shallow embedding of the `nodes_reboot` batch loop: the log lines
produced for the whole nodes list, in order.  `confirm` models the
interactive `input()` answer per node name, `outcome` the behaviour of the
external reboot call per serial number. -/
def nodes_reboot (yes : Bool) (confirm : Str → Bool) (outcome : Str → RebootOutcome)
    (nodes : List RNode) : List LogEntry :=
  nodes.foldl (fun acc node => acc ++ rebootNode yes confirm outcome node) []

/-! ## Bulk workload delete (ms_workloads.py, `_ms_workloads_delete`) -/

/-- One version entry of a workload in the workloads file. -/
structure WLVersionRef where
  name : Str
  releaseName : Option Str
deriving DecidableEq

/-- One workload entry of the workloads file. -/
structure WLEntry where
  name : Str
  versions : List WLVersionRef
deriving DecidableEq

/-- The operations of the external MS workloads collaborator that
`_ms_workloads_delete` invokes, over an abstract remote state `σ`:
`deleteVersion` models `WorkloadVersion(...).delete_workload_version()`
(raising `ValueError` = `Except.error`), `getVersions` models
`WorkloadVersion(name)._get_versions()`, and `deleteWorkload` models
`WorkloadVersion(name).delete_workload()`. -/
structure MSWorkloadOps (σ : Type) where
  deleteVersion : σ → Str → Str → Option Str → Except Str σ
  getVersions : σ → Str → List Str
  deleteWorkload : σ → Str → σ

/-- Observable actions of the bulk delete, in execution order. -/
inductive DelAction where
  | versionDeleted (workload version : Str) : DelAction
  | versionFailed (workload version msg : Str) : DelAction
  | workloadDeleted (workload : Str) : DelAction
deriving DecidableEq

/-- The inner version loop of `_ms_workloads_delete` (ms_workloads.py
lines 412-419): each listed version is deleted one at a time, a failure
(`ValueError`) is caught and logged as a warning, and the loop always
proceeds to the next version. -/
def deleteVersionsPhase {σ : Type} (ops : MSWorkloadOps σ) (s : σ) (wl : WLEntry) :
    σ × List DelAction :=
  wl.versions.foldl
    (fun st v =>
      match ops.deleteVersion st.1 wl.name v.name v.releaseName with
      | .ok s' => (s', st.2 ++ [.versionDeleted wl.name v.name])
      | .error m => (st.1, st.2 ++ [.versionFailed wl.name v.name m]))
    (s, [])

/-- One iteration of the outer workload loop of `_ms_workloads_delete`
(lines 411-423): after the version attempts, the owning workload is
deleted exactly when `_get_versions()` reports no remaining versions. -/
def processWorkloadDelete {σ : Type} (ops : MSWorkloadOps σ) (s : σ) (wl : WLEntry) :
    σ × List DelAction :=
  let st := deleteVersionsPhase ops s wl
  if ops.getVersions st.1 wl.name = [] then
    (ops.deleteWorkload st.1 wl.name, st.2 ++ [.workloadDeleted wl.name])
  else st

/-- Shallow embedding of `_ms_workloads_delete`: the workload loop over the
file contents, threading the remote state and accumulating actions. -/
def ms_workloads_delete {σ : Type} (ops : MSWorkloadOps σ) (s : σ) (file : List WLEntry) :
    σ × List DelAction :=
  file.foldl
    (fun st wl =>
      let r := processWorkloadDelete ops st.1 wl
      (r.1, st.2 ++ r.2))
    (s, [])

/-! ## Shared helpers and fixtures -/

/-- A regex-form filter specification: a string starting with `"regex:"`. -/
def isRegexSpec : PyVal → Bool
  | .string s => rxMarker.isPrefixOf s
  | _ => false

/-- A concrete stand-in for the external regex engine, used to instantiate
closed statements. -/
def noSearch : Str → Str → Bool := fun _ _ => false

theorem isPrefixOf_append_self (l p : List Char) : l.isPrefixOf (l ++ p) = true := by
  induction l with
  | nil => simp [List.isPrefixOf]
  | cons c cs ih => simp [List.isPrefixOf, ih]

theorem drop_marker_append (p : Str) : (rxMarker ++ p).drop 6 = p := by
  have hlen : rxMarker.length = 6 := rfl
  rw [← hlen]
  exact List.drop_left rxMarker p

/-! ## Claim theorems -/

/-- C1 counterexample: the claim says `matches(v, x)` is true iff `x == v`
for every non-regex `FilterSpec` value `v`; but for the boolean value
`False` (and likewise the integer `0`), `False == False` holds while
`check_filter_arg(False, False)` returns `False`, because the code guards
the whole comparison with Python truthiness of the filter
(`if cmd_line_filter:`). -/
theorem claim_C1_counterexample :
    pyEq (.bool false) (.bool false) = true
      ∧ check_filter_arg noSearch (.bool false) (.bool false) = false
      ∧ pyEq (.int 0) (.int 0) = true
      ∧ check_filter_arg noSearch (.int 0) (.int 0) = false := by
  decide

/-- C1 (amended): for every *truthy* non-regex `FilterSpec` value `v`
(`True`, a non-zero integer, or a non-empty string not starting with
`"regex:"`), `matches(v, x)` is true iff `x == v` under Python equality;
for `spec = None` or `""`, `matches(spec, x)` is true for every `x`
including `None`; and the falsy values `False` and `0` match no value at
all. -/
theorem claim_C1 (search : Str → Str → Bool) (v x : PyVal)
    (hT : pyTruthy v = true) (hR : isRegexSpec v = false) :
    check_filter_arg search v x = pyEq v x
      ∧ (∀ y, check_filter_arg search .none y = true)
      ∧ (∀ y, check_filter_arg search (.string []) y = true)
      ∧ (∀ y, check_filter_arg search (.bool false) y = false)
      ∧ (∀ y, check_filter_arg search (.int 0) y = false) := by
  refine ⟨?_, fun y => rfl, fun y => rfl, fun y => rfl, fun y => rfl⟩
  cases v with
  | none => simp [pyTruthy] at hT
  | bool b =>
    cases b with
    | false => simp [pyTruthy] at hT
    | true => rfl
  | int n =>
    have hn : (n != 0) = true := hT
    simp only [check_filter_arg, pyEq, pyTruthy]
    simp_all
  | string s =>
    have hs : s ≠ [] := by
      intro hcon
      subst hcon
      simp [pyTruthy, List.isEmpty] at hT
    have hbeq : (s == ([] : List Char)) = false := by
      cases s with
      | nil => exact absurd rfl hs
      | cons c cs => rfl
    have hpre : rxMarker.isPrefixOf s = false := hR
    simp only [check_filter_arg, pyEq, hbeq, pyTruthy, hpre]
    cases s with
    | nil => exact absurd rfl hs
    | cons c cs => simp [List.isEmpty, hpre, pyEq]

/-- C1 witness: the amended statement applied at the truthy filter `5`
against the value `5`. -/
theorem claim_C1_witness :
    check_filter_arg noSearch (.int 5) (.int 5) = pyEq (.int 5) (.int 5) :=
  (claim_C1 noSearch (.int 5) (.int 5) (by decide) (by decide)).1

/-- C6: for every pattern `p`, `matches("regex:"+p, s)` on a string `s`
equals exactly what the regex engine's `search(p, s)` reports (the pattern
found anywhere within `s`, substring-search semantics, case sensitivity as
the engine provides); and for every non-string value (an integer such as
123, a boolean, or `None`) the regex filter returns false for any
pattern. -/
theorem claim_C6 (search : Str → Str → Bool) (p t : Str) (n : Int) (b : Bool) :
    check_filter_arg search (.string (rxMarker ++ p)) (.string t) = search p t
      ∧ check_filter_arg search (.string (rxMarker ++ p)) (.int n) = false
      ∧ check_filter_arg search (.string (rxMarker ++ p)) (.bool b) = false
      ∧ check_filter_arg search (.string (rxMarker ++ p)) .none = false := by
  have hpre : rxMarker.isPrefixOf (rxMarker ++ p) = true := isPrefixOf_append_self _ _
  have hdrop : (rxMarker ++ p).drop 6 = p := drop_marker_append p
  refine ⟨?_, ?_, ?_, ?_⟩ <;>
    simp [check_filter_arg, pyEq, pyTruthy, rxMarker, str, hpre, hdrop, List.isEmpty]

/-! ### Reconciler lemmas -/

/-- The spec-example desired entry `{"key": "env", "value": "prod"}`. -/
def dEnv : RRec := [(str "key", .string (str "env")), (str "value", .string (str "prod"))]

/-- The spec-example observed entry
`{"key": "env", "value": "prod", "_id": "abc"}`. -/
def oEnv : RRec :=
  [(str "key", .string (str "env")), (str "value", .string (str "prod")),
   (str "_id", .string (str "abc"))]

theorem find_in_remotes_eq (d : RRec) (O : List RRec) :
    find_in_remotes_list d O = (O.find? (supersetMatch d)).getD [] := by
  cases O with
  | nil => rfl
  | cons r rs =>
    simp only [find_in_remotes_list, List.isEmpty_cons, Bool.false_eq_true, if_false]
    cases h : (r :: rs).find? (supersetMatch d) <;> simp [h]

theorem supersetMatch_ne_nil {d r : RRec} (hm : supersetMatch d r = true) (hd : d ≠ []) :
    r ≠ [] := by
  cases d with
  | nil => exact absurd rfl hd
  | cons kv d' =>
    intro hr
    subst hr
    simp [supersetMatch, dictLookup] at hm

theorem find_isEmpty_eq_all {d : RRec} (hd : d ≠ []) (O : List RRec) :
    (find_in_remotes_list d O).isEmpty = O.all (fun r => !supersetMatch d r) := by
  rw [find_in_remotes_eq]
  cases h : O.find? (supersetMatch d) with
  | none =>
    have hno : ∀ r ∈ O, ¬ supersetMatch d r = true := List.find?_eq_none.mp h
    have hall : O.all (fun r => !supersetMatch d r) = true := by
      rw [List.all_eq_true]
      intro r hr
      simpa using hno r hr
    simp [hall]
  | some r =>
    have hm : supersetMatch d r = true := List.find?_some h
    have hmem : r ∈ O := List.mem_of_find?_eq_some h
    have hrn : r ≠ [] := supersetMatch_ne_nil hm hd
    have hall : O.all (fun x => !supersetMatch d x) = false := by
      cases hae : O.all (fun x => !supersetMatch d x) with
      | false => rfl
      | true =>
        rw [List.all_eq_true] at hae
        have := hae r hmem
        simp [hm] at this
    rw [hall]
    cases r with
    | nil => exact absurd rfl hrn
    | cons a as => rfl

theorem toAdd_foldl (O : List RRec) :
    ∀ (D : List RRec) (acc : List RRec), (∀ d ∈ D, d ≠ []) →
      D.foldl
        (fun acc tunnel =>
          if (find_in_remotes_list tunnel O).isEmpty then acc ++ [tunnel] else acc) acc
        = acc ++ D.filter (fun d => O.all (fun r => !supersetMatch d r)) := by
  intro D
  induction D with
  | nil => intro acc _; simp
  | cons d D' ih =>
    intro acc hD
    have hd : d ≠ [] := hD d (List.mem_cons_self d D')
    have hD' : ∀ x ∈ D', x ≠ [] := fun x hx => hD x (List.mem_cons_of_mem d hx)
    simp only [List.foldl_cons, find_isEmpty_eq_all hd O, List.filter_cons]
    cases hcond : O.all (fun r => !supersetMatch d r) with
    | true =>
      rw [if_pos rfl, if_pos rfl, ih (acc ++ [d]) hD']
      simp
    | false =>
      rw [if_neg (by decide), if_neg (by decide)]
      exact ih acc hD'

theorem toRemove_foldl (O : List RRec) :
    ∀ (D : List RRec) (acc : List RRec), (∀ d ∈ D, d ≠ []) →
      D.foldl
        (fun acc tunnel =>
          let remote_element := find_in_remotes_list tunnel O
          if remote_element.isEmpty then acc else acc ++ [remote_element]) acc
        = acc ++ D.filterMap (fun d => O.find? (supersetMatch d)) := by
  intro D
  induction D with
  | nil => intro acc _; simp
  | cons d D' ih =>
    intro acc hD
    have hd : d ≠ [] := hD d (List.mem_cons_self d D')
    have hD' : ∀ x ∈ D', x ≠ [] := fun x hx => hD x (List.mem_cons_of_mem d hx)
    simp only [List.foldl_cons, List.filterMap_cons]
    cases h : O.find? (supersetMatch d) with
    | none =>
      have hval : find_in_remotes_list d O = [] := by
        rw [find_in_remotes_eq, h]; rfl
      simp only [hval, List.isEmpty_nil, if_true]
      exact ih acc hD'
    | some r =>
      have hrn : r ≠ [] := supersetMatch_ne_nil (List.find?_some h) hd
      have hval : find_in_remotes_list d O = r := by
        rw [find_in_remotes_eq, h]; rfl
      have her : r.isEmpty = false := by
        cases r with
        | nil => exact absurd rfl hrn
        | cons a as => rfl
      simp only [hval, her]
      rw [if_neg (by decide), ih (acc ++ [r]) hD']
      simp

/-- C2 counterexample: with desired `[{}]` and observed `[{}]`, the empty
observed record *is* a superset-match for the empty desired record
(vacuously), yet the code puts the desired entry into `to_add` and
schedules nothing for removal, because both call sites test the returned
dict for Python truthiness and the matching entry is falsy. -/
theorem claim_C2_counterexample :
    supersetMatch [] [] = true
      ∧ tunnels_to_add_for_node [([] : RRec)] [([] : RRec)] = [[]]
      ∧ tunnels_to_remove_for_node [([] : RRec)] [([] : RRec)] = [] := by
  decide

/-- C2 (amended): for every desired list whose entries are all non-empty
records, the reconciler pairs each desired entry with the first observed
entry that superset-matches it (every key of the desired entry present
with an equal value, extra observed keys allowed): `to_add` is exactly the
desired entries with no superset-match in the observed list, and
`to_remove` collects, per desired entry that has one, that first matching
*observed* entry.  An empty desired record whose first superset-match is
the empty observed record is misclassified (treated as unmatched), which
is what forces the non-emptiness restriction. -/
theorem claim_C2 (D O : List RRec) (hD : ∀ d ∈ D, d ≠ []) :
    tunnels_to_add_for_node D O = D.filter (fun d => O.all (fun r => !supersetMatch d r))
      ∧ tunnels_to_remove_for_node D O = D.filterMap (fun d => O.find? (supersetMatch d)) := by
  constructor
  · have h1 := toAdd_foldl O D [] hD
    simp only [List.nil_append] at h1
    exact h1
  · have h1 := toRemove_foldl O D [] hD
    simp only [List.nil_append] at h1
    exact h1

/-- C2 witness: the spec example — desired `[{"key":"env","value":"prod"}]`
against observed `[{"key":"env","value":"prod","_id":"abc"}]` gives
`to_add = []` and `to_remove = [the observed entry]`. -/
theorem claim_C2_witness :
    tunnels_to_add_for_node [dEnv] [oEnv] = []
      ∧ tunnels_to_remove_for_node [dEnv] [oEnv] = [oEnv] := by
  have h := claim_C2 [dEnv] [oEnv] (by decide)
  constructor
  · rw [h.1]; decide
  · rw [h.2]; decide

/-- C10: the matcher applied to an empty desired record returns the first
entry of any non-empty observed list (the subset-match over no keys is
vacuously true), and in delete mode an empty record in the desired remotes
file therefore schedules removal of the node's first existing (non-empty)
remote connection. -/
theorem claim_C10 (r₀ : RRec) (rs : List RRec) :
    find_in_remotes_list [] (r₀ :: rs) = r₀
      ∧ (r₀ ≠ [] → tunnels_to_remove_for_node [[]] (r₀ :: rs) = [r₀]) := by
  have h1 : find_in_remotes_list [] (r₀ :: rs) = r₀ := by
    simp [find_in_remotes_list, List.find?, supersetMatch]
  refine ⟨h1, fun hne => ?_⟩
  cases r₀ with
  | nil => exact absurd rfl hne
  | cons a as => simp [tunnels_to_remove_for_node, h1]

/-- C10 witness: with observed list `[oEnv, dEnv]`, the empty desired
record pairs with and schedules removal of the first entry `oEnv`. -/
theorem claim_C10_witness :
    find_in_remotes_list [] [oEnv, dEnv] = oEnv
      ∧ tunnels_to_remove_for_node [[]] [oEnv, dEnv] = [oEnv] :=
  ⟨(claim_C10 oEnv [dEnv]).1, (claim_C10 oEnv [dEnv]).2 (by decide)⟩

/-! ### Version selection lemmas -/

/-- A version record with only the `overall_size` field populated, used for
concrete boundary checks. -/
def vOf (sz : Nat) : VersionRecord :=
  { name := [], releaseName := Option.none, files := Option.none, createdAt := 0,
    updatedAt := Option.none, overall_size := some sz }

/-- A version record with only `createdAt` populated, used for concrete
slice checks. -/
def vAt (k : Nat) : VersionRecord :=
  { name := [], releaseName := Option.none, files := Option.none, createdAt := k,
    updatedAt := Option.none, overall_size := Option.none }

/-- C5: with no filters given at all, `filter_versions` returns the input
versions unchanged in order and content, except that every returned
version carries `overall_size` equal to the integer sum of its
`files[].size` (zero when `files` is missing). -/
theorem claim_C5 (search : Str → Str → Bool) (vs : List VersionRecord) :
    filter_versions search
        ⟨.none, .none, Option.none, Option.none, Option.none⟩ vs
      = .ok (vs.map setOverall) := by
  simp only [filter_versions]
  rw [show (fun v : VersionRecord => check_filter_arg search PyVal.none (.string v.name))
        = (fun _ => true) from rfl,
      show (fun v : VersionRecord => check_filter_arg search PyVal.none (releaseNamePy v))
        = (fun _ => true) from rfl,
      List.filter_true, List.filter_true]
  rfl

theorem takeRightL_append (d u : Str) : takeRightL u.length (d ++ u) = u := by
  unfold takeRightL
  rw [List.length_append]
  have harith : d.length + u.length - u.length = d.length := by omega
  rw [harith]
  exact List.drop_left d u

theorem dropRightL_append (d u : Str) : dropRightL u.length (d ++ u) = d := by
  unfold dropRightL
  rw [List.length_append]
  have harith : d.length + u.length - u.length = d.length := by omega
  rw [harith]
  exact List.take_left d u

theorem takeRightL_two_append_single (d : Str) (c : Char) (hne : d ≠ []) :
    takeRightL 2 (d ++ [c]) = [d.getLast hne, c] := by
  have hd : d.dropLast ++ [d.getLast hne] = d := List.dropLast_append_getLast hne
  have h2 : takeRightL 2 (d.dropLast ++ ([d.getLast hne] ++ [c])) = [d.getLast hne] ++ [c] := by
    have := takeRightL_append d.dropLast ([d.getLast hne] ++ [c])
    simpa using this
  calc takeRightL 2 (d ++ [c])
      = takeRightL 2 ((d.dropLast ++ [d.getLast hne]) ++ [c]) := by rw [hd]
    _ = takeRightL 2 (d.dropLast ++ ([d.getLast hne] ++ [c])) := by rw [List.append_assoc]
    _ = [d.getLast hne, c] := h2

theorem parseNat_digits {d : Str} {n : Nat} (h : parseNat d = some n) :
    d ≠ [] ∧ d.all isDigitC = true := by
  unfold parseNat at h
  by_cases hc : (!d.isEmpty && d.all isDigitC) = true
  · have hc2 : d.all isDigitC = true := by
      have := hc
      simp only [Bool.and_eq_true] at this
      exact this.2
    refine ⟨?_, hc2⟩
    intro hnil
    subst hnil
    simp at hc
  · rw [if_neg hc] at h
    exact absurd h (by simp)

/-- Dispatch of `parseSizeAbove` on a decimal literal followed by each of
the four unit suffixes, establishing the binary multiples and the
two-character-before-one-character matching order. -/
theorem parseSizeAbove_unit (d : Str) (n : Nat) (h : parseNat d = some n) :
    parseSizeAbove (d ++ str "KB") = .ok (n * 1024)
      ∧ parseSizeAbove (d ++ str "MB") = .ok (n * 1024 * 1024)
      ∧ parseSizeAbove (d ++ str "GB") = .ok (n * 1024 * 1024 * 1024)
      ∧ parseSizeAbove (d ++ str "B") = .ok n := by
  obtain ⟨hne, hdig⟩ := parseNat_digits h
  have hcd : isDigitC (d.getLast hne) = true :=
    List.all_eq_true.mp hdig _ (List.getLast_mem hne)
  have htrB : takeRightL 2 (d ++ str "B") = [d.getLast hne, 'B'] :=
    takeRightL_two_append_single d 'B' hne
  have hKB : takeRightL 2 (d ++ str "KB") = str "KB" := by
    simpa using takeRightL_append d (str "KB")
  have hMB : takeRightL 2 (d ++ str "MB") = str "MB" := by
    simpa using takeRightL_append d (str "MB")
  have hGB : takeRightL 2 (d ++ str "GB") = str "GB" := by
    simpa using takeRightL_append d (str "GB")
  have hdKB : dropRightL 2 (d ++ str "KB") = d := by
    simpa using dropRightL_append d (str "KB")
  have hdMB : dropRightL 2 (d ++ str "MB") = d := by
    simpa using dropRightL_append d (str "MB")
  have hdGB : dropRightL 2 (d ++ str "GB") = d := by
    simpa using dropRightL_append d (str "GB")
  have htr1B : takeRightL 1 (d ++ str "B") = str "B" := by
    simpa using takeRightL_append d (str "B")
  have hd1B : dropRightL 1 (d ++ str "B") = d := by
    simpa using dropRightL_append d (str "B")
  refine ⟨?_, ?_, ?_, ?_⟩
  · unfold parseSizeAbove
    rw [if_pos hKB, hdKB, h]
  · unfold parseSizeAbove
    rw [if_neg (by rw [hMB]; decide), if_pos hMB, hdMB, h]
  · unfold parseSizeAbove
    rw [if_neg (by rw [hGB]; decide), if_neg (by rw [hGB]; decide), if_pos hGB, hdGB, h]
  · have hnK : ¬ takeRightL 2 (d ++ str "B") = str "KB" := by
      rw [htrB]
      intro hx
      have hcK : d.getLast hne = 'K' := by
        have := List.head_eq_of_cons_eq hx
        exact this
      rw [hcK] at hcd
      exact absurd hcd (by decide)
    have hnM : ¬ takeRightL 2 (d ++ str "B") = str "MB" := by
      rw [htrB]
      intro hx
      have hcM : d.getLast hne = 'M' := List.head_eq_of_cons_eq hx
      rw [hcM] at hcd
      exact absurd hcd (by decide)
    have hnG : ¬ takeRightL 2 (d ++ str "B") = str "GB" := by
      rw [htrB]
      intro hx
      have hcG : d.getLast hne = 'G' := List.head_eq_of_cons_eq hx
      rw [hcG] at hcd
      exact absurd hcd (by decide)
    unfold parseSizeAbove
    rw [if_neg hnK, if_neg hnM, if_neg hnG, if_pos htr1B, hd1B, h]

/-- The per-version loop of the size filter equals a strict-threshold
filter once the threshold parses. -/
theorem sizeFilterGo_eq {s : Str} {t : Nat} (hp : parseSizeAbove s = .ok t)
    (vs : List VersionRecord) :
    sizeFilterGo s vs = .ok (vs.filter (fun v => v.overall_size.getD 0 > t)) := by
  induction vs with
  | nil => rfl
  | cons v rest ih =>
    simp only [sizeFilterGo, hp, ih, List.filter_cons]
    by_cases hv : v.overall_size.getD 0 > t
    · simp [hv]
    · simp [hv]

/-- C3: a `size_above` string made of a decimal literal followed by a unit
suffix in {GB, MB, KB, B} is converted to a byte threshold with binary
multiples (the two-character suffixes matched before the one-character B),
and the size stage keeps exactly the versions whose `overall_size`
strictly exceeds that threshold; at the boundary, `"1KB"` excludes an
`overall_size` of 1024 and includes 1025; a non-empty string with a
malformed unit suffix raises the fatal "Invalid size format" error.  (The
bound `n ≤ 2^53` keeps the decimal literal in the range where Python's
conversion through `float` is exact, which is what the Nat model of the
threshold assumes.) -/
theorem claim_C3 (d : Str) (n : Nat) (hd : parseNat d = some n) (hn : n ≤ 2 ^ 53)
    (u : Str) (mult : Nat)
    (hu : (u, mult) ∈ [(str "KB", 1024), (str "MB", 1024 * 1024),
                       (str "GB", 1024 * 1024 * 1024), (str "B", 1)])
    (vs : List VersionRecord)
    (s : Str) (hs : s ≠ [])
    (h2K : ¬ takeRightL 2 s = str "KB") (h2M : ¬ takeRightL 2 s = str "MB")
    (h2G : ¬ takeRightL 2 s = str "GB") (h1B : ¬ takeRightL 1 s = str "B")
    (w : VersionRecord) (ws : List VersionRecord) :
    parseSizeAbove (d ++ u) = .ok (n * mult)
      ∧ sizeStage (some (d ++ u)) vs
          = .ok (vs.filter (fun v => v.overall_size.getD 0 > n * mult))
      ∧ sizeStage (some (str "1KB")) [vOf 1024, vOf 1025] = .ok [vOf 1025]
      ∧ sizeStage (some s) (w :: ws) = .error sizeErrMsg := by
  obtain ⟨hne, -⟩ := parseNat_digits hd
  have hpu := parseSizeAbove_unit d n hd
  have hparse : parseSizeAbove (d ++ u) = .ok (n * mult) := by
    simp only [List.mem_cons, List.mem_singleton, Prod.mk.injEq] at hu
    rcases hu with ⟨hu1, hu2⟩ | ⟨hu1, hu2⟩ | ⟨hu1, hu2⟩ | ⟨hu1, hu2⟩ | h0
    · rw [hu1, hu2]; exact hpu.1
    · rw [hu1, hu2]; simpa [Nat.mul_assoc] using hpu.2.1
    · rw [hu1, hu2]; simpa [Nat.mul_assoc] using hpu.2.2.1
    · rw [hu1, hu2]; simpa using hpu.2.2.2
    · exact absurd h0 (by simp)
  have hdune : (d ++ u).isEmpty = false := by
    cases d with
    | nil => exact absurd rfl hne
    | cons c cs => rfl
  have hmal : parseSizeAbove s = .error sizeErrMsg := by
    unfold parseSizeAbove
    rw [if_neg h2K, if_neg h2M, if_neg h2G, if_neg h1B]
  refine ⟨hparse, ?_, by rfl, ?_⟩
  · simp only [sizeStage, hdune, Bool.false_eq_true, if_false]
    exact sizeFilterGo_eq hparse vs
  · have hsne : s.isEmpty = false := by
      cases s with
      | nil => exact absurd rfl hs
      | cons c cs => rfl
    simp only [sizeStage, hsne, Bool.false_eq_true, if_false, sizeFilterGo, hmal]

/-- C3 witness: `"1KB"` parses to 1024 and the malformed suffix `"1XY"`
raises the fatal error on a non-empty version list. -/
theorem claim_C3_witness :
    parseSizeAbove (str "1" ++ str "KB") = .ok (1 * 1024)
      ∧ sizeStage (some (str "1KB")) [vOf 1024, vOf 1025] = .ok [vOf 1025]
      ∧ sizeStage (some (str "1XY")) [vOf 0] = .error sizeErrMsg := by
  have h := claim_C3 (str "1") 1 (by decide) (by norm_num) (str "KB") 1024 (by simp)
    [] (str "1XY") (by decide) (by decide) (by decide) (by decide) (by decide) (vOf 0) []
  exact ⟨h.1, h.2.2.1, h.2.2.2⟩

/-- C4: with a `range` given, the candidates are sorted ascending by
`createdAt` (stable, so an already-sorted quintuple is kept in input
order) and Python slice/index selection is applied: `"0:2"` keeps the two
oldest, `"-2:"` the two newest, `"2"` exactly the third; a specification
with more than one colon, or a bare index out of range in either
direction, raises the fatal "Invalid version_list_filter format."
error. -/
theorem claim_C4 (v0 v1 v2 v3 v4 : VersionRecord)
    (h : List.Sorted (fun a b => a.createdAt ≤ b.createdAt) [v0, v1, v2, v3, v4]) :
    rangeStage (some (str "0:2")) [v0, v1, v2, v3, v4] = .ok [v0, v1]
      ∧ rangeStage (some (str "-2:")) [v0, v1, v2, v3, v4] = .ok [v3, v4]
      ∧ rangeStage (some (str "2")) [v0, v1, v2, v3, v4] = .ok [v2]
      ∧ rangeStage (some (str "1:2:3")) [v0, v1, v2, v3, v4] = .error rangeErrMsg
      ∧ rangeStage (some (str "5")) [v0, v1, v2, v3, v4] = .error rangeErrMsg
      ∧ rangeStage (some (str "-6")) [v0, v1, v2, v3, v4] = .error rangeErrMsg := by
  have hs : List.insertionSort (fun a b => a.createdAt ≤ b.createdAt) [v0, v1, v2, v3, v4]
      = [v0, v1, v2, v3, v4] := h.insertionSort_eq
  refine ⟨?_, ?_, ?_, ?_, ?_, ?_⟩ <;>
    · simp only [rangeStage]
      rw [hs]
      rfl

/-- C4 witness: five concrete versions with ascending `createdAt`. -/
theorem claim_C4_witness :
    rangeStage (some (str "0:2")) [vAt 0, vAt 1, vAt 2, vAt 3, vAt 4] = .ok [vAt 0, vAt 1]
      ∧ rangeStage (some (str "1:2:3")) [vAt 0, vAt 1, vAt 2, vAt 3, vAt 4]
          = .error rangeErrMsg := by
  have h := claim_C4 (vAt 0) (vAt 1) (vAt 2) (vAt 3) (vAt 4)
    (by simp [List.sorted_cons, vAt])
  exact ⟨h.1, h.2.2.2.1⟩

/-! ### Heap frame lemmas for claim C7 -/

theorem readH_eq (h : Heap) (i : Nat) : readH h i = (h[i]?).getD default := by
  simp [readH, List.getD]

theorem stripOverall_setOverall (v : VersionRecord) :
    stripOverall (setOverall v) = stripOverall v := rfl

theorem setHeap_frame (idxs : List Nat) :
    ∀ h : Heap,
      (idxs.foldl (fun hh i => hh.set i (setOverall (readH hh i))) h).length = h.length
        ∧ ∀ j : Nat,
            stripOverall (readH (idxs.foldl (fun hh i => hh.set i (setOverall (readH hh i))) h) j)
              = stripOverall (readH h j) := by
  induction idxs with
  | nil => exact fun h => ⟨rfl, fun j => rfl⟩
  | cons i rest ih =>
    intro h
    simp only [List.foldl_cons]
    have hlen1 : (h.set i (setOverall (readH h i))).length = h.length := List.length_set ..
    have hstrip1 : ∀ j : Nat,
        stripOverall (readH (h.set i (setOverall (readH h i))) j) = stripOverall (readH h j) := by
      intro j
      by_cases hij : i = j
      · subst hij
        by_cases hilt : i < h.length
        · have hset : (h.set i (setOverall (readH h i)))[i]? = some (setOverall (readH h i)) :=
            List.getElem?_set_eq_of_lt _ hilt
          rw [readH_eq (h.set i (setOverall (readH h i))) i, hset]
          simp [stripOverall_setOverall]
        · have hid : h.set i (setOverall (readH h i)) = h :=
            List.set_eq_of_length_le (Nat.le_of_not_lt hilt)
          rw [hid]
      · have hne : (h.set i (setOverall (readH h i)))[j]? = h[j]? := List.getElem?_set_ne hij
        rw [readH_eq (h.set i (setOverall (readH h i))) j, hne, ← readH_eq h j]
    obtain ⟨ihlen, ihstrip⟩ := ih (h.set i (setOverall (readH h i)))
    exact ⟨by rw [ihlen, hlen1], fun j => by rw [ihstrip j, hstrip1 j]⟩

/-- C7 counterexample: with one record carrying `files = [5]` and no
`overall_size`, a call with no filters at all leaves the caller's heap
changed — the record has gained `overall_size = 5` in place, so the
caller's input list is *not* the same as before the call. -/
theorem claim_C7_counterexample :
    (filter_versions_heap noSearch ⟨.none, .none, Option.none, Option.none, Option.none⟩
        [{ name := [], releaseName := Option.none, files := some [5], createdAt := 0,
           updatedAt := Option.none, overall_size := Option.none }] [0]).1
      ≠ [{ name := [], releaseName := Option.none, files := some [5], createdAt := 0,
           updatedAt := Option.none, overall_size := Option.none }] := by
  decide

/-- C7 (amended): the policy never changes the caller's list structure and
never changes any field of the caller's records other than the derived
`overall_size` field: only the `overall_size` computation writes into the
caller's records in place (so records passing the name/release filters
gain that field), and once any size/age filter has executed all later work
happens on internally-held copies, so the heap after the call agrees with
the heap before up to `overall_size`. -/
theorem claim_C7 (search : Str → Str → Bool) (a : FilterArgs) (h : Heap)
    (caller : List Nat) :
    (filter_versions_heap search a h caller).1.length = h.length
      ∧ ∀ j : Nat,
          stripOverall (readH (filter_versions_heap search a h caller).1 j)
            = stripOverall (readH h j) := by
  exact ⟨(setHeap_frame _ h).1, (setHeap_frame _ h).2⟩

/-! ### Bulk delete lemmas for claim C8 -/

theorem deleteVersionsPhase_aux {σ : Type} (ops : MSWorkloadOps σ) (wlname : Str) :
    ∀ (vs : List WLVersionRef) (st : σ × List DelAction),
      ((vs.foldl
          (fun st v =>
            match ops.deleteVersion st.1 wlname v.name v.releaseName with
            | .ok s' => (s', st.2 ++ [.versionDeleted wlname v.name])
            | .error m => (st.1, st.2 ++ [.versionFailed wlname v.name m])) st).2.length
          = st.2.length + vs.length)
        ∧ ∀ w : Str,
            DelAction.workloadDeleted w ∈
                (vs.foldl
                  (fun st v =>
                    match ops.deleteVersion st.1 wlname v.name v.releaseName with
                    | .ok s' => (s', st.2 ++ [.versionDeleted wlname v.name])
                    | .error m => (st.1, st.2 ++ [.versionFailed wlname v.name m])) st).2 →
              DelAction.workloadDeleted w ∈ st.2 := by
  intro vs
  induction vs with
  | nil => exact fun st => ⟨by simp, fun w hw => hw⟩
  | cons v rest ih =>
    intro st
    simp only [List.foldl_cons]
    cases hdel : ops.deleteVersion st.1 wlname v.name v.releaseName with
    | ok s' =>
      obtain ⟨ihlen, ihmem⟩ := ih (s', st.2 ++ [.versionDeleted wlname v.name])
      refine ⟨by rw [ihlen]; simp; omega, fun w hw => ?_⟩
      have := ihmem w hw
      rcases List.mem_append.mp this with hin | hsingle
      · exact hin
      · simp at hsingle
    | error m =>
      obtain ⟨ihlen, ihmem⟩ := ih (st.1, st.2 ++ [.versionFailed wlname v.name m])
      refine ⟨by rw [ihlen]; simp; omega, fun w hw => ?_⟩
      have := ihmem w hw
      rcases List.mem_append.mp this with hin | hsingle
      · exact hin
      · simp at hsingle

/-- C8: in the bulk delete, every listed version of a workload is attempted
exactly once (one action per listed version, failures caught as logged
warnings rather than aborting the loop), and the owning workload is
deleted if and only if, after those attempts, the remote version list
reported for it is empty — in particular, when a failed deletion leaves a
version behind, the workload is not deleted. -/
theorem claim_C8 {σ : Type} (ops : MSWorkloadOps σ) (s : σ) (wl : WLEntry) :
    (DelAction.workloadDeleted wl.name ∈ (processWorkloadDelete ops s wl).2
        ↔ ops.getVersions (deleteVersionsPhase ops s wl).1 wl.name = [])
      ∧ (deleteVersionsPhase ops s wl).2.length = wl.versions.length := by
  have haux := deleteVersionsPhase_aux ops wl.name wl.versions (s, [])
  have hphase : deleteVersionsPhase ops s wl
      = wl.versions.foldl
          (fun st v =>
            match ops.deleteVersion st.1 wl.name v.name v.releaseName with
            | .ok s' => (s', st.2 ++ [.versionDeleted wl.name v.name])
            | .error m => (st.1, st.2 ++ [.versionFailed wl.name v.name m])) (s, []) := rfl
  have hnotin : DelAction.workloadDeleted wl.name ∉ (deleteVersionsPhase ops s wl).2 := by
    intro hmem
    rw [hphase] at hmem
    have := haux.2 wl.name hmem
    simp at this
  constructor
  · by_cases hg : ops.getVersions (deleteVersionsPhase ops s wl).1 wl.name = []
    · simp only [processWorkloadDelete, hg, if_true]
      simp [hg]
    · simp only [processWorkloadDelete, hg, if_false]
      simp only [hg, iff_false]
      exact hnotin
  · rw [hphase, haux.1]
    simp

/-! ### Reboot batch lemmas for claim C9 -/

/-- The node named "A" used in the concrete reboot runs. -/
def nodeA : RNode := ⟨str "A", str "SA"⟩

/-- The node named "B" used in the concrete reboot runs. -/
def nodeB : RNode := ⟨str "B", str "SB"⟩

/-- A reboot behaviour where node "A" fails with a non-conflict status
error and every other node succeeds. -/
def outcome500 : Str → RebootOutcome :=
  fun s => if s = str "SA" then .statusErr 500 else .ok

theorem nodes_reboot_foldl_acc (yes : Bool) (confirm : Str → Bool)
    (outcome : Str → RebootOutcome) :
    ∀ (l : List RNode) (acc : List LogEntry),
      l.foldl (fun acc node => acc ++ rebootNode yes confirm outcome node) acc
        = acc ++ l.foldl (fun acc node => acc ++ rebootNode yes confirm outcome node) [] := by
  intro l
  induction l with
  | nil => intro acc; simp
  | cons n rest ih =>
    intro acc
    simp only [List.foldl_cons]
    rw [ih (acc ++ rebootNode yes confirm outcome n),
        ih ([] ++ rebootNode yes confirm outcome n)]
    simp

theorem rebootNode_no_err (yes : Bool) (confirm : Str → Bool)
    (outcome : Str → RebootOutcome) (n : RNode) :
    ∀ e ∈ rebootNode yes confirm outcome n, e.1 ≠ Level.err := by
  intro e he
  unfold rebootNode at he
  by_cases hc : (!yes && !confirm n.name) = true
  · rw [if_pos hc] at he
    rw [List.mem_singleton] at he
    subst he
    simp
  · rw [if_neg hc] at he
    rcases List.mem_append.mp he with hl | hr
    · rw [List.mem_singleton] at hl
      subst hl
      simp
    · cases hout : outcome n.serialNumber with
      | ok => rw [hout] at hr; simp at hr
      | statusErr code =>
        rw [hout] at hr
        by_cases hcode : code = conflictCode
        · simp [hcode] at hr
          subst hr
          simp
        · simp [hcode] at hr

theorem nodes_reboot_no_err (yes : Bool) (confirm : Str → Bool)
    (outcome : Str → RebootOutcome) :
    ∀ (nodes : List RNode), ∀ e ∈ nodes_reboot yes confirm outcome nodes, e.1 ≠ Level.err := by
  intro nodes
  induction nodes with
  | nil => intro e he; simp [nodes_reboot] at he
  | cons n rest ih =>
    intro e he
    unfold nodes_reboot at he
    simp only [List.foldl_cons, List.nil_append] at he
    rw [nodes_reboot_foldl_acc yes confirm outcome rest (rebootNode yes confirm outcome n)] at he
    rcases List.mem_append.mp he with hl | hr
    · exact rebootNode_no_err yes confirm outcome n e hl
    · exact ih e hr

/-- C9 counterexample: in a two-node batch where the first node's reboot
raises a non-conflict status error, the complete log of the run consists
of the two "Trigger command" info lines only — the error is swallowed
without any error-level log line for that item (though processing does
continue with the second node), contradicting the claim that such errors
are surfaced/logged as errors. -/
theorem claim_C9_counterexample :
    nodes_reboot true (fun _ => true) outcome500 [nodeA, nodeB]
        = [(Level.info, str "Trigger command to reboot node " ++ str "A"),
           (Level.info, str "Trigger command to reboot node " ++ str "B")]
      ∧ (nodes_reboot true (fun _ => true) outcome500 [nodeA, nodeB]).all
            (fun e => !(e.1 == Level.err) && !(e.1 == Level.warn)) = true := by
  decide

/-- C9 (amended): for every node in the reboot batch whose reboot call
raises a status-code error, the error is caught locally: a conflict (the
node is offline) is logged as a warning, while any other status error is
silently ignored (no log line of any level is emitted for it, and in
particular no error-level line is ever produced by the batch); in both
cases processing continues with the next node — the log of a concatenated
batch is the concatenation of the per-part logs, so no failure aborts the
remainder. -/
theorem claim_C9 (yes : Bool) (confirm : Str → Bool) (outcome : Str → RebootOutcome)
    (l₁ l₂ : List RNode) (n : RNode) (c : Nat) :
    nodes_reboot yes confirm outcome (l₁ ++ l₂)
        = nodes_reboot yes confirm outcome l₁ ++ nodes_reboot yes confirm outcome l₂
      ∧ (outcome n.serialNumber = .statusErr conflictCode →
          nodes_reboot true confirm outcome [n]
            = [(Level.info, str "Trigger command to reboot node " ++ n.name),
               (Level.warn, str "Node " ++ n.name
                  ++ str " is currently offline and cannot be rebooted")])
      ∧ (outcome n.serialNumber = .statusErr c → c ≠ conflictCode →
          nodes_reboot true confirm outcome [n]
            = [(Level.info, str "Trigger command to reboot node " ++ n.name)])
      ∧ (∀ e ∈ nodes_reboot yes confirm outcome (l₁ ++ l₂), e.1 ≠ Level.err) := by
  refine ⟨?_, ?_, ?_, nodes_reboot_no_err yes confirm outcome (l₁ ++ l₂)⟩
  · unfold nodes_reboot
    rw [List.foldl_append,
        nodes_reboot_foldl_acc yes confirm outcome l₂
          (l₁.foldl (fun acc node => acc ++ rebootNode yes confirm outcome node) [])]
  · intro hout
    have hsingle : nodes_reboot true confirm outcome [n] = rebootNode true confirm outcome n := by
      simp [nodes_reboot]
    rw [hsingle]
    unfold rebootNode
    rw [if_neg (by simp), hout]
    simp
  · intro hout hc
    have hsingle : nodes_reboot true confirm outcome [n] = rebootNode true confirm outcome n := by
      simp [nodes_reboot]
    rw [hsingle]
    unfold rebootNode
    rw [if_neg (by simp), hout]
    simp [hc]

/-- C9 witness: a conflict produces the offline warning; a 500 status
error produces no extra log line; both runs complete. -/
theorem claim_C9_witness :
    nodes_reboot true (fun _ => true) (fun _ => RebootOutcome.statusErr 409) [nodeA]
        = [(Level.info, str "Trigger command to reboot node " ++ str "A"),
           (Level.warn, str "Node " ++ str "A"
              ++ str " is currently offline and cannot be rebooted")]
      ∧ nodes_reboot true (fun _ => true) (fun _ => RebootOutcome.statusErr 500) [nodeA]
          = [(Level.info, str "Trigger command to reboot node " ++ str "A")] := by
  constructor
  · exact (claim_C9 true (fun _ => true) (fun _ => RebootOutcome.statusErr 409)
      [] [] nodeA 409).2.1 rfl
  · exact (claim_C9 true (fun _ => true) (fun _ => RebootOutcome.statusErr 500)
      [] [] nodeA 500).2.2.1 rfl (by decide)

end NerveCLI
